import Mathlib

/-!
Verification of the accounting core of a cargo cache management tool.

The development shallowly embeds the two source files of the repository:

 - src/utils.rs: name/version splitting (split_name_version) and recursive
   directory size computation (get_size);
 - src/crate_detail.rs: the CrateDetail accounting store, its accumulation
   helpers (add_crate_to_hash_map, add_bin), kilobyte lookups
   (get_hashmap_crate_size, find_size_git_all, find_size_registry_all, find),
   and the three directory scanners (list_installed_bin,
   list_installed_crate_registry, list_installed_crate_git).

Rust strings are modelled as Lean String values (worked on through their
character lists), u64 byte counts as Nat (the claims under study never
exercise wrap-around of 64-bit accumulation), f64 kilobyte values as exact
rationals (the f64 operations involved are a single division and a single
addition; IEEE rounding is not modelled), HashMap as an association list,
and the filesystem as an inductive tree in which unreadable paths are an
explicit constructor.  Fallible Rust code (anyhow::Result plus panics)
returns Except: an ioError constructor stands for an error propagated with
the question mark operator, a panicked constructor stands for a Rust panic
such as an out-of-bounds slice index.
-/

namespace CargoTrim

/-! ### Character list utilities mirroring Rust string operations -/

/-- Model of the Rust iterator `s.split(sep)` collected into a vector:
splits a character list at every occurrence of `sep`, keeping empty pieces,
so the result always has one more piece than there are separators. -/
def splitOnChar (sep : Char) : List Char → List (List Char)
  | [] => [[]]
  | c :: cs =>
    match splitOnChar sep cs with
    | [] => [[c]]
    | h :: t => if c = sep then [] :: h :: t else (c :: h) :: t

/-- Joining a list of pieces with a separator character; inverse of
`splitOnChar` and model of Rust `Vec::join` on string slices. -/
def joinWith (sep : Char) : List (List Char) → List Char
  | [] => []
  | [p] => p
  | p :: q :: rest => p ++ sep :: joinWith sep (q :: rest)

/-- Model of `s.rsplitn(2, sep)` followed by indexing the element `[1]`:
everything before the last occurrence of the separator.  Returns none when
the separator does not occur, in which case the Rust code panics with an
out-of-bounds slice index. -/
def beforeLastSep (sep : Char) (s : List Char) : Option (List Char) :=
  let parts := splitOnChar sep s
  if 2 ≤ parts.length then some (joinWith sep parts.dropLast) else none

/-- Whether a string contains the separator at least once, so that the
`rsplitn(2, sep)` slice of the Rust code has an element at index 1. -/
def hasSepChar (sep : Char) (s : String) : Bool := (beforeLastSep sep s.data).isSome

/-- Prefix match of a pattern at the head of a character list. -/
def matchesHere : List Char → List Char → Bool
  | [], _ => true
  | _ :: _, [] => false
  | p :: ps, h :: hs => p = h && matchesHere ps hs

/-- Substring search: does the pattern occur anywhere in the haystack. -/
def hasSub : List Char → List Char → Bool
  | pat, [] => matchesHere pat []
  | pat, h :: hs => matchesHere pat (h :: hs) || hasSub pat hs

/-- Model of Rust `str::contains` for string-literal patterns:
case-sensitive substring containment. -/
def rustContains (hay pat : String) : Bool := hasSub pat.data hay.data

/-! ### Model of `semver::Version::parse(s).is_ok()`

The semver crate accepts exactly `MAJOR.MINOR.PATCH` where each is an
ASCII-digit numeric identifier without leading zeros that fits in a u64,
optionally followed by `-` and a dot-separated pre-release (identifiers
built from ASCII alphanumerics and hyphens, non-empty, purely numeric ones
without leading zeros), optionally followed by `+` and a dot-separated
build metadata part (identifiers built from ASCII alphanumerics and
hyphens, non-empty, leading zeros allowed). -/

/-- Characters allowed in pre-release and build identifiers: ASCII
alphanumerics and the hyphen. -/
def isIdentChar (c : Char) : Bool := c.isAlphanum || c = '-'

/-- Numeric value of a string of ASCII digits. -/
def digitsToNat : List Char → Nat
  | [] => 0
  | c :: cs => (c.toNat - '0'.toNat) * 10 ^ cs.length + digitsToNat cs

/-- Valid numeric identifier for the version core: non-empty, all digits,
no leading zero, and the value fits in a u64. -/
def validNumericIdent (s : List Char) : Bool :=
  !s.isEmpty && s.all Char.isDigit &&
    (s.length = 1 || s.head? != some '0') &&
    digitsToNat s < 2 ^ 64

/-- Valid pre-release identifier: non-empty, alphanumeric or hyphen
characters, and if purely numeric then without a leading zero. -/
def validPreIdent (s : List Char) : Bool :=
  !s.isEmpty && s.all isIdentChar &&
    (!s.all Char.isDigit || s.length = 1 || s.head? != some '0')

/-- Valid build-metadata identifier: non-empty, alphanumeric or hyphen. -/
def validBuildIdent (s : List Char) : Bool :=
  !s.isEmpty && s.all isIdentChar

/-- Valid `MAJOR.MINOR.PATCH` version core. -/
def validVersionCore (s : List Char) : Bool :=
  match splitOnChar '.' s with
  | [a, b, c] => validNumericIdent a && validNumericIdent b && validNumericIdent c
  | _ => false

/-- Model of `semver::Version::parse(s).is_ok()` on a character list. -/
def semverParseOk (s : List Char) : Bool :=
  let core := s.takeWhile fun c => c ≠ '-' && c ≠ '+'
  let rest := s.dropWhile fun c => c ≠ '-' && c ≠ '+'
  validVersionCore core &&
    match rest with
    | [] => true
    | c :: r =>
      if c = '-' then
        let pre := r.takeWhile (· ≠ '+')
        let rest2 := r.dropWhile (· ≠ '+')
        (splitOnChar '.' pre).all validPreIdent &&
          match rest2 with
          | [] => true
          | _ :: b => (splitOnChar '.' b).all validBuildIdent
      else
        (splitOnChar '.' r).all validBuildIdent

/-! ### The Name Canonicalizer: `split_name_version` from src/utils.rs -/

/-- Model of the Rust scanning loop in `split_name_version`: position of the
first hyphen-separated token that parses as a semantic version, equal to the
number of tokens when no token parses. -/
def version_start_position : List (List Char) → Nat
  | [] => 0
  | t :: ts => if semverParseOk t then 0 else version_start_position ts + 1

/-- Embedding of `split_name_version` from src/utils.rs: split the full name
on hyphens, find where the semver version starts, and rejoin the two halves
with hyphens. -/
def split_name_version (full_name : String) : String × String :=
  let version_split := splitOnChar '-' full_name.data
  let pos := version_start_position version_split
  ((joinWith '-' (version_split.take pos)).asString,
   (joinWith '-' (version_split.drop pos)).asString)

/-! ### The Accounting Store: `CrateDetail` from src/crate_detail.rs

A CrateInfo record holds a single non-negative byte count, and equality of
records is equality of sizes, so `HashMap<String, CrateInfo>` is modelled as
an association list `List (String × Nat)` with first-match lookup. -/

/-- Lookup in the association-list model of `HashMap<String, CrateInfo>`;
models `hashmap.get(crate_name)` returning the stored byte size. -/
def lookupSize : List (String × Nat) → String → Option Nat
  | [], _ => none
  | (k, v) :: rest, key => if k = key then some v else lookupSize rest key

/-- Embedding of `add_crate_to_hash_map` from src/crate_detail.rs: if the
key is present add the size to its existing size, otherwise insert a new
record with the given size. -/
def add_crate_to_hash_map : List (String × Nat) → String → Nat → List (String × Nat)
  | [], key, size => [(key, size)]
  | (k, v) :: rest, key, size =>
    if k = key then (k, v + size) :: rest
    else (k, v) :: add_crate_to_hash_map rest key size

/-- Model of `HashMap::insert`, used by `add_bin`: unconditional
insert-or-overwrite. -/
def insertOverwrite : List (String × Nat) → String → Nat → List (String × Nat)
  | [], key, size => [(key, size)]
  | (k, v) :: rest, key, size =>
    if k = key then (k, size) :: rest
    else (k, v) :: insertOverwrite rest key size

/-- Embedding of the `CrateDetail` struct: five independent category maps. -/
structure CrateDetail where
  bin : List (String × Nat)
  git_crates_source : List (String × Nat)
  registry_crates_source : List (String × Nat)
  git_crates_archive : List (String × Nat)
  registry_crates_archive : List (String × Nat)
deriving DecidableEq

/-- The store every scan starts from: `CrateDetail::default()`. -/
def emptyCrateDetail : CrateDetail := ⟨[], [], [], [], []⟩

/-- Embedding of `CrateDetail::add_bin`: unconditional insert into the
binaries category. -/
def CrateDetail.add_bin (cd : CrateDetail) (bin_name : String) (size : Nat) : CrateDetail :=
  { cd with bin := insertOverwrite cd.bin bin_name size }

/-- Embedding of `CrateDetail::add_git_crate_source`. -/
def CrateDetail.add_git_crate_source (cd : CrateDetail) (crate_name : String) (size : Nat) :
    CrateDetail :=
  { cd with git_crates_source := add_crate_to_hash_map cd.git_crates_source crate_name size }

/-- Embedding of `CrateDetail::add_registry_crate_source`. -/
def CrateDetail.add_registry_crate_source (cd : CrateDetail) (crate_name : String) (size : Nat) :
    CrateDetail :=
  { cd with registry_crates_source :=
      add_crate_to_hash_map cd.registry_crates_source crate_name size }

/-- Embedding of `CrateDetail::add_git_crate_archive`. -/
def CrateDetail.add_git_crate_archive (cd : CrateDetail) (crate_name : String) (size : Nat) :
    CrateDetail :=
  { cd with git_crates_archive := add_crate_to_hash_map cd.git_crates_archive crate_name size }

/-- Embedding of `CrateDetail::add_registry_crate_archive`. -/
def CrateDetail.add_registry_crate_archive (cd : CrateDetail) (crate_name : String) (size : Nat) :
    CrateDetail :=
  { cd with registry_crates_archive :=
      add_crate_to_hash_map cd.registry_crates_archive crate_name size }

/-- Embedding of `get_hashmap_crate_size`: stored byte count divided by
1000 squared when the key is present, 0 otherwise.  The Rust f64 result is
modelled as an exact rational; the only operation applied to it downstream
is one addition. -/
def get_hashmap_crate_size (hashmap : List (String × Nat)) (crate_name : String) : ℚ :=
  match lookupSize hashmap crate_name with
  | some size => (size : ℚ) / 1000 ^ 2
  | none => 0

/-- Embedding of `CrateDetail::find_size_git_source`. -/
def CrateDetail.find_size_git_source (cd : CrateDetail) (crate_name : String) : ℚ :=
  get_hashmap_crate_size cd.git_crates_source crate_name

/-- Embedding of `CrateDetail::find_size_registry_source`. -/
def CrateDetail.find_size_registry_source (cd : CrateDetail) (crate_name : String) : ℚ :=
  get_hashmap_crate_size cd.registry_crates_source crate_name

/-- Embedding of `CrateDetail::find_size_git_archive`. -/
def CrateDetail.find_size_git_archive (cd : CrateDetail) (crate_name : String) : ℚ :=
  get_hashmap_crate_size cd.git_crates_archive crate_name

/-- Embedding of `CrateDetail::find_size_registry_archive`. -/
def CrateDetail.find_size_registry_archive (cd : CrateDetail) (crate_name : String) : ℚ :=
  get_hashmap_crate_size cd.registry_crates_archive crate_name

/-- Embedding of `CrateDetail::find_size_git_all`: archive plus source. -/
def CrateDetail.find_size_git_all (cd : CrateDetail) (crate_name : String) : ℚ :=
  cd.find_size_git_archive crate_name + cd.find_size_git_source crate_name

/-- Embedding of `CrateDetail::find_size_registry_all`: archive plus source. -/
def CrateDetail.find_size_registry_all (cd : CrateDetail) (crate_name : String) : ℚ :=
  cd.find_size_registry_archive crate_name + cd.find_size_registry_source crate_name

/-- Embedding of `CrateDetail::find`: dispatch on the location label. -/
def CrateDetail.find (cd : CrateDetail) (crate_name location : String) : ℚ :=
  if rustContains location "REGISTRY" then cd.find_size_registry_all crate_name
  else if rustContains location "GIT" then cd.find_size_git_all crate_name
  else 0

/-! ### Store operation sequences

The scanners mutate the store only through `add_bin` and the four
`add_*_crate_*` helpers; `StoreOp` names these five operations so that
invariants over arbitrary operation sequences can be stated. -/

/-- One mutation of the Accounting Store. -/
inductive StoreOp where
  | opBin (name : String) (size : Nat)
  | opGitSource (name : String) (size : Nat)
  | opRegistrySource (name : String) (size : Nat)
  | opGitArchive (name : String) (size : Nat)
  | opRegistryArchive (name : String) (size : Nat)

/-- Apply one store operation. -/
def applyOp (cd : CrateDetail) : StoreOp → CrateDetail
  | .opBin n s => cd.add_bin n s
  | .opGitSource n s => cd.add_git_crate_source n s
  | .opRegistrySource n s => cd.add_registry_crate_source n s
  | .opGitArchive n s => cd.add_git_crate_archive n s
  | .opRegistryArchive n s => cd.add_registry_crate_archive n s

/-- Apply a sequence of store operations left to right. -/
def applyOps (cd : CrateDetail) (ops : List StoreOp) : CrateDetail :=
  ops.foldl applyOp cd

/-- The four non-binary (accumulative) categories of the store. -/
inductive NonBinCategory where
  | gitSource
  | registrySource
  | gitArchive
  | registryArchive

/-- Category map of a non-binary category. -/
def catMap (cd : CrateDetail) : NonBinCategory → List (String × Nat)
  | .gitSource => cd.git_crates_source
  | .registrySource => cd.registry_crates_source
  | .gitArchive => cd.git_crates_archive
  | .registryArchive => cd.registry_crates_archive

/-- The store operation that accumulates into a given non-binary category. -/
def mkCatOp : NonBinCategory → String → Nat → StoreOp
  | .gitSource => .opGitSource
  | .registrySource => .opRegistrySource
  | .gitArchive => .opGitArchive
  | .registryArchive => .opRegistryArchive

/-! ### Filesystem model and the Size Walker `get_size` from src/utils.rs -/

/-- Failure of a Rust scan: either an io error propagated through a Result
with the question mark operator, or a panic (out-of-bounds slice index). -/
inductive RustError where
  | ioError (msg : String)
  | panicked (msg : String)
deriving DecidableEq

/-- A filesystem subtree: a regular file with a length, a path that cannot
be read (unreadable directory, broken symlink, vanished entry), or a
directory listing named entries. -/
inductive FsEntry where
  | file (size : Nat)
  | bad
  | dir (entries : List (String × FsEntry))

/-- Model of `fs::read_dir` with the anyhow context message attached by the
caller: listing succeeds only on a readable directory. -/
def readDir (e : FsEntry) (msg : String) : Except RustError (List (String × FsEntry)) :=
  match e with
  | .dir es => .ok es
  | _ => .error (.ioError msg)

mutual

/-- Embedding of `get_size` from src/utils.rs: length of a regular file, or
the recursive total over the entries of a directory; the first unreadable
path aborts the computation with an io error. -/
def get_size : FsEntry → Except RustError Nat
  | .file n => .ok n
  | .bad => .error (.ioError "failed to read metadata")
  | .dir es => get_size_entries es

/-- The directory loop of `get_size`: left-to-right sum over the entries,
recursing into subdirectories, stopping at the first error. -/
def get_size_entries : List (String × FsEntry) → Except RustError Nat
  | [] => .ok 0
  | (_, e) :: rest => do
    let s ← get_size e
    let r ← get_size_entries rest
    pure (s + r)

end

mutual

/-- Whether every path of the subtree can be read, so that `get_size`
succeeds on it. -/
def readable : FsEntry → Bool
  | .file _ => true
  | .bad => false
  | .dir es => readableEntries es

/-- `readable` over a directory listing. -/
def readableEntries : List (String × FsEntry) → Bool
  | [] => true
  | (_, e) :: rest => readable e && readableEntries rest

end

mutual

/-- Total byte size of a readable subtree: files contribute their length,
directories the sum over their entries. -/
def treeSize : FsEntry → Nat
  | .file n => n
  | .bad => 0
  | .dir es => treeSizeEntries es

/-- `treeSize` over a directory listing. -/
def treeSizeEntries : List (String × FsEntry) → Nat
  | [] => 0
  | (_, e) :: rest => treeSize e + treeSizeEntries rest

end

/-! ### The Directory Scanners from src/crate_detail.rs

Each scanner takes the store and optional root directories (`none` models a
root whose `exists()` check fails) and returns the populated store together
with the list of discovered keys.  The loop bodies of the Rust code are
named step functions folded with `foldlM` so that errors (io failures and
panics) abort the scan exactly where the Rust code would. -/

/-- Loop body of `list_installed_bin`: size of the entry, then its file
name, then an unconditional `add_bin` and a push onto the key list. -/
def bin_step (acc : CrateDetail × List String) (entry : String × FsEntry) :
    Except RustError (CrateDetail × List String) := do
  let bin_size ← get_size entry.2
  let bin_name := entry.1
  pure (acc.1.add_bin bin_name bin_size, acc.2 ++ [bin_name])

/-- Insert a string into an already sorted list, after every strictly
smaller element and before the first element that is not strictly smaller,
preserving the relative order of equal elements. -/
def insertSorted (a : String) : List String → List String
  | [] => [a]
  | b :: rest => if b < a then b :: insertSorted a rest else a :: b :: rest

/-- Model of `Vec::sort` on strings: a stable sort by the lexicographic
string order (implemented as insertion sort; a stable sort is determined
uniquely by the comparison, so this agrees with the mergesort of the Rust
standard library). -/
def sortStrings : List String → List String
  | [] => []
  | a :: rest => insertSorted a (sortStrings rest)

/-- Model of `Vec::dedup`: collapse runs of consecutive equal elements. -/
def dedupAdj : List String → List String
  | [] => []
  | [a] => [a]
  | a :: b :: rest => if a = b then dedupAdj (b :: rest) else a :: dedupAdj (b :: rest)

/-- Embedding of `CrateDetail::list_installed_bin`: walk the binaries
directory if it exists, record each direct child, and return the sorted
list of binary names. -/
def list_installed_bin (cd : CrateDetail) (bin_dir : Option FsEntry) :
    Except RustError (CrateDetail × List String) := do
  let acc ← match bin_dir with
    | none => pure (cd, ([] : List String))
    | some root => do
      let entries ← readDir root "failed to read bin directory"
      entries.foldlM bin_step (cd, ([] : List String))
  pure (acc.1, sortStrings acc.2)

/-- Inner loop body of the src-directory walk of
`list_installed_crate_registry`: key is the raw entry name. -/
def registry_src_inner_step (acc : CrateDetail × List String) (entry : String × FsEntry) :
    Except RustError (CrateDetail × List String) := do
  let crate_size ← get_size entry.2
  let crate_name := entry.1
  pure (acc.1.add_registry_crate_source crate_name crate_size, acc.2 ++ [crate_name])

/-- Outer loop body of the src-directory walk: one registry index folder. -/
def registry_src_step (acc : CrateDetail × List String) (entry : String × FsEntry) :
    Except RustError (CrateDetail × List String) := do
  let inner ← readDir entry.2 "failed to read registry folder"
  inner.foldlM registry_src_inner_step acc

/-- Inner loop body of the cache-directory walk: the key drops the
extension after the last dot via `rsplitn(2, '.')`; a file name without a
dot panics on the index `[1]`. -/
def registry_cache_inner_step (acc : CrateDetail × List String) (entry : String × FsEntry) :
    Except RustError (CrateDetail × List String) := do
  let file_name := entry.1
  let crate_size ← get_size entry.2
  match beforeLastSep '.' file_name.data with
  | none => throw (.panicked "index out of bounds in rsplitn name split")
  | some stem =>
    pure (acc.1.add_registry_crate_archive stem.asString crate_size, acc.2 ++ [stem.asString])

/-- Outer loop body of the cache-directory walk: one registry index folder. -/
def registry_cache_step (acc : CrateDetail × List String) (entry : String × FsEntry) :
    Except RustError (CrateDetail × List String) := do
  let inner ← readDir entry.2 "failed to read cache dir registry folder"
  inner.foldlM registry_cache_inner_step acc

/-- Embedding of `CrateDetail::list_installed_crate_registry`: walk the src
root and the cache root when they exist, then sort and deduplicate the
collected keys. -/
def list_installed_crate_registry (cd : CrateDetail) (src_dir cache_dir : Option FsEntry) :
    Except RustError (CrateDetail × List String) := do
  let acc1 ← match src_dir with
    | none => pure (cd, ([] : List String))
    | some root => do
      let entries ← readDir root "failed to read src directory"
      entries.foldlM registry_src_step (cd, ([] : List String))
  let acc2 ← match cache_dir with
    | none => pure acc1
    | some root => do
      let entries ← readDir root "failed to read cache dir"
      entries.foldlM registry_cache_step acc1
  pure (acc2.1, dedupAdj (sortStrings acc2.2))

/-- Inner loop body of the checkout walk of `list_installed_crate_git`: for
one revision-SHA entry inside the repository folder named `file_path`, the
key is everything before the last hyphen of `file_path` joined to the SHA
entry name; a `file_path` without a hyphen panics on the index `[1]`. -/
def checkout_sha_step (file_path : String) (acc : CrateDetail × List String)
    (sha_entry : String × FsEntry) : Except RustError (CrateDetail × List String) := do
  let crate_size ← get_size sha_entry.2
  let git_sha := sha_entry.1
  match beforeLastSep '-' file_path.data with
  | none => throw (.panicked "index out of bounds in rsplitn name split")
  | some nm =>
    let full_name := nm.asString ++ "-" ++ git_sha
    pure (acc.1.add_git_crate_archive full_name crate_size, acc.2 ++ [full_name])

/-- Outer loop body of the checkout walk: one repository folder. -/
def checkout_step (acc : CrateDetail × List String) (entry : String × FsEntry) :
    Except RustError (CrateDetail × List String) := do
  let inner ← readDir entry.2 "failed to read checkout dir sub folder"
  inner.foldlM (checkout_sha_step entry.1) acc

/-- Loop body of the database walk of `list_installed_crate_git`: the key
is everything before the last hyphen with the literal suffix `-HEAD`; a
name without a hyphen panics on the index `[1]`. -/
def db_step (acc : CrateDetail × List String) (entry : String × FsEntry) :
    Except RustError (CrateDetail × List String) := do
  let crate_size ← get_size entry.2
  match beforeLastSep '-' entry.1.data with
  | none => throw (.panicked "index out of bounds in rsplitn name split")
  | some nm =>
    let full_name := nm.asString ++ "-HEAD"
    pure (acc.1.add_git_crate_source full_name crate_size, acc.2 ++ [full_name])

/-- Embedding of `CrateDetail::list_installed_crate_git`: walk the checkout
root and the database root when they exist, then sort and deduplicate the
collected keys. -/
def list_installed_crate_git (cd : CrateDetail) (checkout_dir db_dir : Option FsEntry) :
    Except RustError (CrateDetail × List String) := do
  let acc1 ← match checkout_dir with
    | none => pure (cd, ([] : List String))
    | some root => do
      let entries ← readDir root "failed to read checkout directory"
      entries.foldlM checkout_step (cd, ([] : List String))
  let acc2 ← match db_dir with
    | none => pure acc1
    | some root => do
      let entries ← readDir root "failed to read db dir"
      entries.foldlM db_step acc1
  pure (acc2.1, dedupAdj (sortStrings acc2.2))

/-! ### Declarative descriptions of the git scanner results

These functions restate the specified key derivation and size accounting of
the git scanner; the scanner is proved to agree with them on well-formed
cache layouts. -/

/-- The entries of a directory, empty for anything else. -/
def entriesOf : FsEntry → List (String × FsEntry)
  | .dir es => es
  | _ => []

/-- Whether a filesystem node is a directory. -/
def isDirE : FsEntry → Bool
  | .dir _ => true
  | _ => false

/-- Everything before the last hyphen of a name (total function; the git
scanner only reaches it on names that contain a hyphen). -/
def nameStem (name : String) : String := ((beforeLastSep '-' name.data).getD []).asString

/-- Specified key of a git checkout entry: outer folder stem, hyphen, SHA. -/
def checkoutKey (outer sha : String) : String := nameStem outer ++ "-" ++ sha

/-- Specified key of a git database entry: stem plus the literal `-HEAD`. -/
def dbKey (name : String) : String := nameStem name ++ "-HEAD"

/-- Key and size observations produced by the checkout walk, in walk order. -/
def checkoutObs (cos : List (String × FsEntry)) : List (String × Nat) :=
  cos.flatMap fun p => (entriesOf p.2).map fun q => (checkoutKey p.1 q.1, treeSize q.2)

/-- Keys produced by the checkout walk, in walk order. -/
def checkoutKeys (cos : List (String × FsEntry)) : List String :=
  cos.flatMap fun p => (entriesOf p.2).map fun q => checkoutKey p.1 q.1

/-- Key and size observations produced by the database walk, in walk order. -/
def dbObs (dbs : List (String × FsEntry)) : List (String × Nat) :=
  dbs.map fun p => (dbKey p.1, treeSize p.2)

/-- Keys produced by the database walk, in walk order. -/
def dbKeys (dbs : List (String × FsEntry)) : List String := dbs.map fun p => dbKey p.1

/-- Merge a list of key and size observations into a category map with the
accumulative `add_crate_to_hash_map`. -/
def applyObs (m : List (String × Nat)) (obs : List (String × Nat)) : List (String × Nat) :=
  obs.foldl (fun acc o => add_crate_to_hash_map acc o.1 o.2) m

/-- Well-formed checkout entry: repository folder name contains a hyphen,
the node is a directory, and every nested revision subtree is readable. -/
def wfCheckoutEntry (p : String × FsEntry) : Bool :=
  hasSepChar '-' p.1 && isDirE p.2 && (entriesOf p.2).all fun q => readable q.2

/-- Well-formed database entry: name contains a hyphen, subtree readable. -/
def wfDbEntry (p : String × FsEntry) : Bool := hasSepChar '-' p.1 && readable p.2

/-- A concrete store with a single git-source record, used to exhibit the
precedence of the REGISTRY branch of `find` over the GIT branch. -/
def cdGitOnly : CrateDetail := ⟨[], [("k", 5000000)], [], [], []⟩

instance {ε α : Type} [DecidableEq ε] [DecidableEq α] : DecidableEq (Except ε α) := fun a b =>
  match a, b with
  | .ok x, .ok y =>
    if h : x = y then isTrue (congrArg Except.ok h)
    else isFalse fun hc => h (Except.ok.inj hc)
  | .error x, .error y =>
    if h : x = y then isTrue (congrArg Except.error h)
    else isFalse fun hc => h (Except.error.inj hc)
  | .ok _, .error _ => isFalse fun hc => Except.noConfusion hc
  | .error _, .ok _ => isFalse fun hc => Except.noConfusion hc

/-! ### Splitting and joining lemmas -/

theorem splitOnChar_ne_nil (sep : Char) (l : List Char) : splitOnChar sep l ≠ [] := by
  cases l with
  | nil => simp [splitOnChar]
  | cons c cs =>
    simp only [splitOnChar]
    cases splitOnChar sep cs with
    | nil => simp
    | cons h t =>
      by_cases hc : c = sep <;> simp [hc]

theorem joinWith_cons_cons (sep c : Char) (h : List Char) (t : List (List Char)) :
    joinWith sep ((c :: h) :: t) = c :: joinWith sep (h :: t) := by
  cases t <;> simp [joinWith]

/-- Splitting and rejoining with the same separator is the identity. -/
theorem joinWith_splitOnChar (sep : Char) : ∀ l : List Char,
    joinWith sep (splitOnChar sep l) = l
  | [] => rfl
  | c :: cs => by
    have ih := joinWith_splitOnChar sep cs
    simp only [splitOnChar]
    cases hs : splitOnChar sep cs with
    | nil => exact absurd hs (splitOnChar_ne_nil sep cs)
    | cons h t =>
      rw [hs] at ih
      by_cases hc : c = sep
      · simp [hc, joinWith, ih]
      · simp [hc, joinWith_cons_cons, ih]

theorem data_asString (s : String) : s.data.asString = s := rfl

theorem nil_asString : ([] : List Char).asString = "" := rfl

/-! ### The scanning loop of the Name Canonicalizer -/

theorem version_start_position_le_length (toks : List (List Char)) :
    version_start_position toks ≤ toks.length := by
  induction toks with
  | nil => simp [version_start_position]
  | cons t ts ih =>
    simp only [version_start_position]
    by_cases h : semverParseOk t = true <;> simp [h, Nat.succ_le_succ ih]

theorem version_start_position_eq_of_first (toks : List (List Char)) :
    ∀ i : Nat, i < toks.length → semverParseOk (toks.getD i []) = true →
      (∀ j < i, semverParseOk (toks.getD j []) = false) →
      version_start_position toks = i := by
  induction toks with
  | nil => intro i hi; simp at hi
  | cons t ts ih =>
    intro i hi hok hbefore
    match i with
    | 0 =>
      simp only [List.getD, List.get?, Option.getD_some] at hok
      simp [version_start_position, hok]
    | i' + 1 =>
      have ht : semverParseOk t = false := by
        have := hbefore 0 (Nat.succ_pos i')
        simpa [List.getD, List.get?] using this
      have hrec := ih i' (by simpa using hi)
        (by simpa [List.getD, List.get?] using hok)
        (fun j hj => by
          have := hbefore (j + 1) (Nat.succ_lt_succ hj)
          simpa [List.getD, List.get?] using this)
      simp [version_start_position, ht, hrec]

theorem version_start_position_eq_length (toks : List (List Char)) :
    (∀ t ∈ toks, semverParseOk t = false) → version_start_position toks = toks.length := by
  induction toks with
  | nil => intro _; simp [version_start_position]
  | cons t ts ih =>
    intro h
    have ht := h t (List.mem_cons_self t ts)
    simp [version_start_position, ht, ih fun x hx => h x (List.mem_cons_of_mem t hx)]

/-- C1: split_name_version scans the hyphen-separated tokens left to right,
splits at the first token that parses as a valid semantic version (name-part
= tokens before it rejoined with hyphens, version-part = that token and all
remaining tokens rejoined with hyphens), and if no token parses as a version
returns the whole input as the name-part with an empty version-part; the
four concrete example splits from the specification hold. -/
theorem c1_split_name_version :
    (∀ (s : String) (i : Nat), i < (splitOnChar '-' s.data).length →
      semverParseOk ((splitOnChar '-' s.data).getD i []) = true →
      (∀ j < i, semverParseOk ((splitOnChar '-' s.data).getD j []) = false) →
      split_name_version s =
        ((joinWith '-' ((splitOnChar '-' s.data).take i)).asString,
         (joinWith '-' ((splitOnChar '-' s.data).drop i)).asString)) ∧
    (∀ s : String, (∀ t ∈ splitOnChar '-' s.data, semverParseOk t = false) →
      split_name_version s = (s, "")) ∧
    split_name_version "sample_crate-0.12.0" = ("sample_crate", "0.12.0") ∧
    split_name_version "another-crate-name-1.4.5" = ("another-crate-name", "1.4.5") ∧
    split_name_version "complex_name-12.0.0-rc.1" = ("complex_name", "12.0.0-rc.1") ∧
    split_name_version "build-number-2.3.4+was0-5" = ("build-number", "2.3.4+was0-5") := by
  refine ⟨?_, ?_, by decide, by decide, by decide, by decide⟩
  · intro s i hi hok hbefore
    simp only [split_name_version]
    rw [version_start_position_eq_of_first (splitOnChar '-' s.data) i hi hok hbefore]
  · intro s hall
    simp only [split_name_version]
    rw [version_start_position_eq_length (splitOnChar '-' s.data) hall]
    simp [joinWith, joinWith_splitOnChar, data_asString, nil_asString]

/-- Witness for C1 at concrete inputs. -/
theorem c1_witness :
    (1 < (splitOnChar '-' "demo-1.2.3".data).length ∧
      semverParseOk ((splitOnChar '-' "demo-1.2.3".data).getD 1 []) = true ∧
      (∀ j < 1, semverParseOk ((splitOnChar '-' "demo-1.2.3".data).getD j []) = false)) ∧
    split_name_version "demo-1.2.3" =
      ((joinWith '-' ((splitOnChar '-' "demo-1.2.3".data).take 1)).asString,
       (joinWith '-' ((splitOnChar '-' "demo-1.2.3".data).drop 1)).asString) ∧
    split_name_version "plain_name" = ("plain_name", "") :=
  ⟨⟨by decide, by decide, by decide⟩,
   c1_split_name_version.1 "demo-1.2.3" 1 (by decide) (by decide) (by decide),
   c1_split_name_version.2.1 "plain_name" (by decide)⟩

/-! ### Lookup lemmas for the accumulation helpers -/

theorem lookupSize_add_crate_to_hash_map (m : List (String × Nat)) (key k : String) (s : Nat) :
    lookupSize (add_crate_to_hash_map m key s) k =
      if k = key then some ((lookupSize m key).getD 0 + s) else lookupSize m k := by
  induction m with
  | nil =>
    by_cases h : k = key
    · subst h
      simp [add_crate_to_hash_map, lookupSize]
    · simp [add_crate_to_hash_map, lookupSize, h, Ne.symm h]
  | cons p rest ih =>
    obtain ⟨a, b⟩ := p
    by_cases ha : a = key
    · subst ha
      by_cases hk : k = a
      · subst hk
        simp [add_crate_to_hash_map, lookupSize]
      · simp [add_crate_to_hash_map, lookupSize, hk, Ne.symm hk]
    · by_cases hk : k = a
      · subst hk
        simp [add_crate_to_hash_map, ha, lookupSize, Ne.symm ha]
      · simp [add_crate_to_hash_map, ha, lookupSize, hk, Ne.symm hk, ih]

theorem lookupSize_insertOverwrite (m : List (String × Nat)) (key k : String) (s : Nat) :
    lookupSize (insertOverwrite m key s) k =
      if k = key then some s else lookupSize m k := by
  induction m with
  | nil =>
    by_cases h : k = key
    · subst h
      simp [insertOverwrite, lookupSize]
    · simp [insertOverwrite, lookupSize, h, Ne.symm h]
  | cons p rest ih =>
    obtain ⟨a, b⟩ := p
    by_cases ha : a = key
    · subst ha
      by_cases hk : k = a
      · subst hk
        simp [insertOverwrite, lookupSize]
      · simp [insertOverwrite, lookupSize, hk, Ne.symm hk]
    · by_cases hk : k = a
      · subst hk
        simp [insertOverwrite, ha, lookupSize, Ne.symm ha]
      · simp [insertOverwrite, ha, lookupSize, hk, Ne.symm hk, ih]

/-- C2: accumulation into a non-binary category is `add_crate_to_hash_map`;
accumulating a then b into the same key yields total a + b, in either
order, and a fresh key behaves like a key present with size zero. -/
theorem c2_accumulative_merge :
    (∀ (c : NonBinCategory) (cd : CrateDetail) (key : String) (s : Nat),
      catMap (applyOp cd (mkCatOp c key s)) c = add_crate_to_hash_map (catMap cd c) key s) ∧
    (∀ (m : List (String × Nat)) (key : String) (a b : Nat),
      lookupSize m key = none →
      lookupSize (add_crate_to_hash_map (add_crate_to_hash_map m key a) key b) key =
        some (a + b)) ∧
    (∀ (m : List (String × Nat)) (key : String) (a b : Nat),
      add_crate_to_hash_map (add_crate_to_hash_map m key a) key b =
        add_crate_to_hash_map (add_crate_to_hash_map m key b) key a) ∧
    (∀ (m : List (String × Nat)) (key : String) (s : Nat),
      lookupSize m key = none → ∀ k : String,
        lookupSize (add_crate_to_hash_map m key s) k =
          lookupSize (add_crate_to_hash_map (m ++ [(key, 0)]) key s) k) := by
  refine ⟨?_, ?_, ?_, ?_⟩
  · intro c cd key s
    cases c <;> rfl
  · intro m key a b h
    simp [lookupSize_add_crate_to_hash_map, h, Nat.add_assoc]
  · intro m key a b
    induction m with
    | nil => simp [add_crate_to_hash_map, Nat.add_comm a b]
    | cons p rest ih =>
      obtain ⟨x, y⟩ := p
      by_cases hx : x = key
      · subst hx
        simp [add_crate_to_hash_map]
        omega
      · simp [add_crate_to_hash_map, hx, ih]
  · intro m key s h k
    induction m with
    | nil => simp [add_crate_to_hash_map]
    | cons p rest ih =>
      obtain ⟨x, y⟩ := p
      simp only [lookupSize] at h
      by_cases hx : x = key
      · simp [hx] at h
      · simp only [if_neg hx] at h
        simp [add_crate_to_hash_map, hx, lookupSize, ih h]

/-- Witness for C2 at concrete inputs. -/
theorem c2_witness :
    (lookupSize [("other", 1)] "fresh" = none ∧
      lookupSize
        (add_crate_to_hash_map (add_crate_to_hash_map [("other", 1)] "fresh" 100) "fresh" 25)
        "fresh" = some (100 + 25)) ∧
    (lookupSize [("other", 1)] "fresh" = none ∧ ∀ k : String,
      lookupSize (add_crate_to_hash_map [("other", 1)] "fresh" 100) k =
        lookupSize (add_crate_to_hash_map ([("other", 1)] ++ [("fresh", 0)]) "fresh" 100) k) :=
  ⟨⟨by decide, c2_accumulative_merge.2.1 [("other", 1)] "fresh" 100 25 (by decide)⟩,
   ⟨by decide, c2_accumulative_merge.2.2.2 [("other", 1)] "fresh" 100 (by decide)⟩⟩

/-- C5: get_hashmap_crate_size returns the stored byte count divided by
1000 squared for a present key and exactly 0 for an absent key; a lookup
miss is a value, never an error. -/
theorem c5_get_hashmap_crate_size :
    ∀ (hashmap : List (String × Nat)) (k : String),
      (∀ v : Nat, lookupSize hashmap k = some v →
        get_hashmap_crate_size hashmap k = (v : ℚ) / 1000 ^ 2) ∧
      (lookupSize hashmap k = none → get_hashmap_crate_size hashmap k = 0) := by
  intro m k
  constructor
  · intro v hv
    simp [get_hashmap_crate_size, hv]
  · intro hv
    simp [get_hashmap_crate_size, hv]

/-- Witness for C5 at concrete inputs. -/
theorem c5_witness :
    (lookupSize [("present", 2000)] "present" = some 2000 ∧
      get_hashmap_crate_size [("present", 2000)] "present" = (2000 : ℚ) / 1000 ^ 2) ∧
    (lookupSize [("present", 2000)] "absent" = none ∧
      get_hashmap_crate_size [("present", 2000)] "absent" = 0) :=
  ⟨⟨by decide, (c5_get_hashmap_crate_size [("present", 2000)] "present").1 2000 (by decide)⟩,
   ⟨by decide, (c5_get_hashmap_crate_size [("present", 2000)] "absent").2 (by decide)⟩⟩

/-- C4 counterexample: on a label containing both REGISTRY and GIT, `find`
does not return the git total even though the label contains GIT, because
the REGISTRY branch is checked first; so the clause of the claim reading
`find equals totalGit(key) when the label contains the substring GIT` fails
at this input. -/
theorem c4_counterexample :
    rustContains "REGISTRY GIT" "GIT" = true ∧
    cdGitOnly.find "k" "REGISTRY GIT" ≠ cdGitOnly.find_size_git_all "k" := by
  constructor
  · decide
  · intro h
    have h5 : (0 : ℚ) = 5000000 / 1000 ^ 2 := by
      simpa [cdGitOnly, CrateDetail.find, CrateDetail.find_size_git_all,
        CrateDetail.find_size_git_archive, CrateDetail.find_size_git_source,
        CrateDetail.find_size_registry_all, CrateDetail.find_size_registry_archive,
        CrateDetail.find_size_registry_source, get_hashmap_crate_size, lookupSize,
        rustContains, hasSub, matchesHere] using h
    norm_num at h5

/-- C4 as amended: `find` dispatches to the registry total when the label
contains REGISTRY, to the git total when the label contains GIT but not
REGISTRY, and to 0 otherwise; matching is case-sensitive substring
containment; each total is the sum of the kilobyte sizes in the
corresponding archive and source categories. -/
theorem c4_amended_find_dispatch :
    (∀ (cd : CrateDetail) (k loc : String), rustContains loc "REGISTRY" = true →
      cd.find k loc = cd.find_size_registry_all k) ∧
    (∀ (cd : CrateDetail) (k loc : String), rustContains loc "REGISTRY" = false →
      rustContains loc "GIT" = true → cd.find k loc = cd.find_size_git_all k) ∧
    (∀ (cd : CrateDetail) (k loc : String), rustContains loc "REGISTRY" = false →
      rustContains loc "GIT" = false → cd.find k loc = 0) ∧
    (∀ (cd : CrateDetail) (k : String),
      cd.find_size_registry_all k =
        get_hashmap_crate_size cd.registry_crates_archive k +
          get_hashmap_crate_size cd.registry_crates_source k) ∧
    (∀ (cd : CrateDetail) (k : String),
      cd.find_size_git_all k =
        get_hashmap_crate_size cd.git_crates_archive k +
          get_hashmap_crate_size cd.git_crates_source k) ∧
    (∀ (cd : CrateDetail) (k : String), cd.find k "registry" = 0 ∧ cd.find k "git" = 0) := by
  have hreg : rustContains "registry" "REGISTRY" = false := by decide
  have hreg2 : rustContains "registry" "GIT" = false := by decide
  have hgit : rustContains "git" "REGISTRY" = false := by decide
  have hgit2 : rustContains "git" "GIT" = false := by decide
  refine ⟨?_, ?_, ?_, ?_, ?_, ?_⟩
  · intro cd k loc h
    simp [CrateDetail.find, h]
  · intro cd k loc h1 h2
    simp [CrateDetail.find, h1, h2]
  · intro cd k loc h1 h2
    simp [CrateDetail.find, h1, h2]
  · intro cd k
    rfl
  · intro cd k
    rfl
  · intro cd k
    exact ⟨by simp [CrateDetail.find, hreg, hreg2], by simp [CrateDetail.find, hgit, hgit2]⟩

/-- Witness for the amended C4 at concrete inputs. -/
theorem c4_witness :
    (rustContains "REGISTRY CACHE" "REGISTRY" = true ∧
      cdGitOnly.find "k" "REGISTRY CACHE" = cdGitOnly.find_size_registry_all "k") ∧
    (rustContains "GIT CHECKOUT" "REGISTRY" = false ∧
      rustContains "GIT CHECKOUT" "GIT" = true ∧
      cdGitOnly.find "k" "GIT CHECKOUT" = cdGitOnly.find_size_git_all "k") ∧
    (rustContains "BINARY" "REGISTRY" = false ∧ rustContains "BINARY" "GIT" = false ∧
      cdGitOnly.find "k" "BINARY" = 0) :=
  ⟨⟨by decide, c4_amended_find_dispatch.1 cdGitOnly "k" "REGISTRY CACHE" (by decide)⟩,
   ⟨by decide, by decide,
    c4_amended_find_dispatch.2.1 cdGitOnly "k" "GIT CHECKOUT" (by decide) (by decide)⟩,
   ⟨by decide, by decide,
    c4_amended_find_dispatch.2.2.1 cdGitOnly "k" "BINARY" (by decide) (by decide)⟩⟩

/-- C10: when a location label contains both REGISTRY and GIT the REGISTRY
branch takes precedence, and matching is plain substring containment: a
label in which GIT occurs inside the longer word DIGIT still dispatches to
the git total when REGISTRY is absent. -/
theorem c10_find_precedence :
    (∀ (cd : CrateDetail) (k loc : String),
      rustContains loc "REGISTRY" = true → rustContains loc "GIT" = true →
      cd.find k loc = cd.find_size_registry_all k) ∧
    (∀ (cd : CrateDetail) (k loc : String),
      rustContains loc "GIT" = true → rustContains loc "REGISTRY" = false →
      cd.find k loc = cd.find_size_git_all k) ∧
    (∀ (cd : CrateDetail) (k : String), cd.find k "DIGIT" = cd.find_size_git_all k) := by
  have h1 : rustContains "DIGIT" "REGISTRY" = false := by decide
  have h2 : rustContains "DIGIT" "GIT" = true := by decide
  refine ⟨?_, ?_, ?_⟩
  · intro cd k loc h _
    simp [CrateDetail.find, h]
  · intro cd k loc h hn
    simp [CrateDetail.find, h, hn]
  · intro cd k
    simp [CrateDetail.find, h1, h2]

/-- Witness for C10 at concrete inputs. -/
theorem c10_witness :
    (rustContains "REGISTRY AND GIT" "REGISTRY" = true ∧
      rustContains "REGISTRY AND GIT" "GIT" = true ∧
      cdGitOnly.find "k" "REGISTRY AND GIT" = cdGitOnly.find_size_registry_all "k") ∧
    (rustContains "DIGITS" "GIT" = true ∧ rustContains "DIGITS" "REGISTRY" = false ∧
      cdGitOnly.find "k" "DIGITS" = cdGitOnly.find_size_git_all "k") :=
  ⟨⟨by decide, by decide,
    c10_find_precedence.1 cdGitOnly "k" "REGISTRY AND GIT" (by decide) (by decide)⟩,
   ⟨by decide, by decide,
    c10_find_precedence.2.1 cdGitOnly "k" "DIGITS" (by decide) (by decide)⟩⟩

/-- C7 counterexample: `add_bin` is an unconditional insert, so observing
the same binary name twice overwrites, and a second observation with a
smaller size decreases the stored size of the existing record. -/
theorem c7_counterexample :
    lookupSize (applyOps emptyCrateDetail [.opBin "a" 10]).bin "a" = some 10 ∧
    lookupSize (applyOps emptyCrateDetail [.opBin "a" 10, .opBin "a" 3]).bin "a" = some 3 ∧
    (3 : Nat) < 10 := by
  refine ⟨rfl, rfl, by norm_num⟩

theorem lookup_add_mono (m : List (String × Nat)) (key k : String) (s v : Nat)
    (h : lookupSize m k = some v) :
    ∃ v', lookupSize (add_crate_to_hash_map m key s) k = some v' ∧ v ≤ v' := by
  rw [lookupSize_add_crate_to_hash_map]
  by_cases hk : k = key
  · subst hk
    rw [h]
    exact ⟨v + s, by simp, Nat.le_add_right v s⟩
  · exact ⟨v, by simp [hk, h], le_rfl⟩

theorem lookup_catMap_applyOp_mono (op : StoreOp) (cd : CrateDetail) (c : NonBinCategory)
    (k : String) (v : Nat) (h : lookupSize (catMap cd c) k = some v) :
    ∃ v', lookupSize (catMap (applyOp cd op) c) k = some v' ∧ v ≤ v' := by
  cases op <;> cases c <;>
    simp only [applyOp, catMap, CrateDetail.add_bin, CrateDetail.add_git_crate_source,
      CrateDetail.add_registry_crate_source, CrateDetail.add_git_crate_archive,
      CrateDetail.add_registry_crate_archive] <;>
    first
      | exact lookup_add_mono _ _ _ _ _ h
      | exact ⟨v, h, le_rfl⟩

/-- C7 as amended: in the four non-binary categories the size stored in an
existing record is never decreased by any sequence of store operations, and
a record is created with the observed size on first observation of a key;
the binaries category is populated by unconditional insert, so a repeated
binary name overwrites rather than accumulates. -/
theorem c7_amended_monotonic :
    (∀ (ops : List StoreOp) (cd : CrateDetail) (c : NonBinCategory) (k : String) (v : Nat),
      lookupSize (catMap cd c) k = some v →
      ∃ v', lookupSize (catMap (applyOps cd ops) c) k = some v' ∧ v ≤ v') ∧
    (∀ (cd : CrateDetail) (c : NonBinCategory) (k : String) (s : Nat),
      lookupSize (catMap cd c) k = none →
      lookupSize (catMap (applyOp cd (mkCatOp c k s)) c) k = some s) := by
  constructor
  · intro ops
    induction ops with
    | nil => exact fun cd c k v h => ⟨v, h, le_rfl⟩
    | cons op rest ih =>
      intro cd c k v h
      obtain ⟨v₁, h₁, hle₁⟩ := lookup_catMap_applyOp_mono op cd c k v h
      obtain ⟨v₂, h₂, hle₂⟩ := ih (applyOp cd op) c k v₁ h₁
      exact ⟨v₂, h₂, le_trans hle₁ hle₂⟩
  · intro cd c k s h
    cases c <;>
      simp only [catMap] at h <;>
      simp [applyOp, mkCatOp, catMap, CrateDetail.add_git_crate_source,
        CrateDetail.add_registry_crate_source, CrateDetail.add_git_crate_archive,
        CrateDetail.add_registry_crate_archive, lookupSize_add_crate_to_hash_map, h]

/-- Witness for the amended C7 at concrete inputs. -/
theorem c7_witness :
    (lookupSize (catMap ⟨[], [("x", 2)], [], [], []⟩ .gitSource) "x" = some 2 ∧
      ∃ v', lookupSize
          (catMap (applyOps ⟨[], [("x", 2)], [], [], []⟩ [.opGitSource "x" 4]) .gitSource)
          "x" = some v' ∧ 2 ≤ v') ∧
    (lookupSize (catMap emptyCrateDetail .gitArchive) "y" = none ∧
      lookupSize (catMap (applyOp emptyCrateDetail (mkCatOp .gitArchive "y" 7)) .gitArchive)
        "y" = some 7) :=
  ⟨⟨by decide,
    c7_amended_monotonic.1 [.opGitSource "x" 4] ⟨[], [("x", 2)], [], [], []⟩ .gitSource
      "x" 2 (by decide)⟩,
   ⟨by decide, c7_amended_monotonic.2 emptyCrateDetail .gitArchive "y" 7 (by decide)⟩⟩

/-! ### The Size Walker -/

theorem except_bind_ok {ε α β : Type} (x : α) (f : α → Except ε β) :
    (Except.ok x >>= f) = f x := rfl

theorem except_bind_error {ε α β : Type} (e : ε) (f : α → Except ε β) :
    ((Except.error e : Except ε α) >>= f) = Except.error e := rfl

theorem except_pure {ε α : Type} (x : α) : (pure x : Except ε α) = Except.ok x := rfl

mutual

theorem get_size_of_readable : (e : FsEntry) → readable e = true → get_size e = .ok (treeSize e)
  | .file _, _ => rfl
  | .bad, h => by simp [readable] at h
  | .dir es, h => by
    have hes : readableEntries es = true := by simpa [readable] using h
    simpa [get_size, treeSize] using get_size_entries_of_readable es hes

theorem get_size_entries_of_readable : (es : List (String × FsEntry)) →
    readableEntries es = true → get_size_entries es = .ok (treeSizeEntries es)
  | [], _ => rfl
  | (_, e) :: rest, h => by
    have he : readable e = true := by
      have := h
      simp [readableEntries] at this
      exact this.1
    have hrest : readableEntries rest = true := by
      have := h
      simp [readableEntries] at this
      exact this.2
    simp [get_size_entries, treeSizeEntries, get_size_of_readable e he,
      get_size_entries_of_readable rest hrest, except_bind_ok, except_pure]

end

mutual

theorem get_size_error_of_not_readable : (e : FsEntry) → readable e = false →
    ∃ err, get_size e = .error err
  | .file _, h => by simp [readable] at h
  | .bad, _ => ⟨.ioError "failed to read metadata", rfl⟩
  | .dir es, h => by
    have hes : readableEntries es = false := by simpa [readable] using h
    simpa [get_size] using get_size_entries_error_of_not_readable es hes

theorem get_size_entries_error_of_not_readable : (es : List (String × FsEntry)) →
    readableEntries es = false → ∃ err, get_size_entries es = .error err
  | [], h => by simp [readableEntries] at h
  | (_, e) :: rest, h => by
    by_cases he : readable e = true
    · have hrest : readableEntries rest = false := by
        simpa [readableEntries, he] using h
      obtain ⟨err, herr⟩ := get_size_entries_error_of_not_readable rest hrest
      exact ⟨err, by
        simp [get_size_entries, get_size_of_readable e he, herr, except_bind_ok,
          except_bind_error]⟩
    · have he' : readable e = false := by simpa using he
      obtain ⟨err, herr⟩ := get_size_error_of_not_readable e he'
      exact ⟨err, by simp [get_size_entries, herr, except_bind_error]⟩

end

theorem treeSizeEntries_eq_map_sum (es : List (String × FsEntry)) :
    treeSizeEntries es = (es.map fun p => treeSize p.2).sum := by
  induction es with
  | nil => rfl
  | cons p rest ih =>
    obtain ⟨nm, e⟩ := p
    simp [treeSizeEntries, ih]

/-- C6: the Size Walker returns the length of a regular file; on a fully
readable directory it returns the sum of the recursive sizes of its
entries (files contribute their length, subdirectories their own recursive
total, as computed by treeSize); on any subtree containing an unreadable
path it returns an error, never a partial total; and a directory holding
exactly two files of 100 and 4900 bytes has size 5000. -/
theorem c6_get_size :
    (∀ n : Nat, get_size (.file n) = .ok n) ∧
    (∀ es : List (String × FsEntry), readableEntries es = true →
      get_size (.dir es) = .ok ((es.map fun p => treeSize p.2).sum)) ∧
    (∀ e : FsEntry, readable e = false → ∃ err, get_size e = .error err) ∧
    get_size (.dir [("a", .file 100), ("b", .file 4900)]) = .ok 5000 := by
  refine ⟨fun n => rfl, ?_, get_size_error_of_not_readable, rfl⟩
  intro es h
  rw [show get_size (.dir es) = get_size_entries es from rfl,
    get_size_entries_of_readable es h, treeSizeEntries_eq_map_sum]

/-- Witness for C6 at concrete inputs. -/
theorem c6_witness :
    (readableEntries [("sub", .dir [("f", .file 7)]), ("g", .file 5)] = true ∧
      get_size (.dir [("sub", .dir [("f", .file 7)]), ("g", .file 5)]) =
        .ok (([("sub", FsEntry.dir [("f", .file 7)]), ("g", FsEntry.file 5)].map
          fun p => treeSize p.2).sum)) ∧
    (readable (.dir [("x", .bad)]) = false ∧
      ∃ err, get_size (.dir [("x", .bad)]) = .error err) :=
  ⟨⟨by decide, c6_get_size.2.1 [("sub", .dir [("f", .file 7)]), ("g", .file 5)] (by decide)⟩,
   ⟨by decide, c6_get_size.2.2.1 (.dir [("x", .bad)]) (by decide)⟩⟩

/-! ### Scanners on missing roots -/

/-- C8: every scanner treats a non-existent root directory as zero entries
and succeeds: with every root absent the scan returns the store unchanged
with an empty key list, and an absent root behaves exactly like an existing
empty directory, contributing nothing to the store or the key list. -/
theorem c8_missing_roots :
    (∀ cd : CrateDetail, list_installed_bin cd none = .ok (cd, [])) ∧
    (∀ cd : CrateDetail,
      list_installed_bin cd none = list_installed_bin cd (some (.dir []))) ∧
    (∀ cd : CrateDetail, list_installed_crate_registry cd none none = .ok (cd, [])) ∧
    (∀ (cd : CrateDetail) (cache : Option FsEntry),
      list_installed_crate_registry cd none cache =
        list_installed_crate_registry cd (some (.dir [])) cache) ∧
    (∀ (cd : CrateDetail) (src : Option FsEntry),
      list_installed_crate_registry cd src none =
        list_installed_crate_registry cd src (some (.dir []))) ∧
    (∀ cd : CrateDetail, list_installed_crate_git cd none none = .ok (cd, [])) ∧
    (∀ (cd : CrateDetail) (db : Option FsEntry),
      list_installed_crate_git cd none db =
        list_installed_crate_git cd (some (.dir [])) db) ∧
    (∀ (cd : CrateDetail) (co : Option FsEntry),
      list_installed_crate_git cd co none =
        list_installed_crate_git cd co (some (.dir []))) :=
  ⟨fun _ => rfl, fun _ => rfl, fun _ => rfl, fun _ _ => rfl,
   fun _ _ => rfl, fun _ => rfl, fun _ _ => rfl, fun _ _ => rfl⟩

/-! ### Missing separators during key derivation -/

theorem except_throw {ε α : Type} (e : ε) : (throw e : Except ε α) = Except.error e := rfl

theorem beforeLastSep_none_of_not_hasSep (sep : Char) (s : String)
    (h : hasSepChar sep s = false) : beforeLastSep sep s.data = none := by
  cases hc : beforeLastSep sep s.data with
  | none => rfl
  | some v => simp [hasSepChar, hc] at h

/-- C9 counterexample: a checkout-root repository folder whose name
contains no hyphen but which holds no nested revision entries is skipped
without any error; the scan succeeds, so a separator-free name encountered
during a scan does not make the scanner fail. -/
theorem c9_counterexample :
    hasSepChar '-' "nodash" = false ∧
    list_installed_crate_git emptyCrateDetail (some (.dir [("nodash", .dir [])])) none =
      .ok (emptyCrateDetail, []) :=
  ⟨by decide, rfl⟩

/-- C9 as amended: whenever the scanner derives a key from a name lacking
the expected separator, the scan aborts with an error (the Rust code panics
on the out-of-bounds slice index) instead of producing a defaulted key: a
database folder name without a hyphen, a checkout repository folder name
without a hyphen holding at least one revision entry, and a registry cache
file name without a dot each abort the scan; a checkout folder with no
nested revision entries never reaches key derivation and is skipped. -/
theorem c9_amended_fail_loudly :
    (∀ (cd : CrateDetail) (name : String) (e : FsEntry),
      hasSepChar '-' name = false →
      ∃ err, list_installed_crate_git cd none (some (.dir [(name, e)])) = .error err) ∧
    (∀ (cd : CrateDetail) (name sha : String) (e : FsEntry)
        (rest : List (String × FsEntry)),
      hasSepChar '-' name = false →
      ∃ err, list_installed_crate_git cd
        (some (.dir [(name, .dir ((sha, e) :: rest))])) none = .error err) ∧
    (∀ (cd : CrateDetail) (idx name : String) (e : FsEntry),
      hasSepChar '.' name = false →
      ∃ err, list_installed_crate_registry cd none
        (some (.dir [(idx, .dir [(name, e)])])) = .error err) ∧
    (∀ (cd : CrateDetail) (name : String),
      hasSepChar '-' name = false →
      list_installed_crate_git cd (some (.dir [(name, .dir [])])) none = .ok (cd, [])) := by
  refine ⟨?_, ?_, ?_, fun cd name _ => rfl⟩
  · intro cd name e h
    have hb := beforeLastSep_none_of_not_hasSep '-' name h
    cases hg : get_size e with
    | ok n =>
      exact ⟨.panicked "index out of bounds in rsplitn name split", by
        simp [list_installed_crate_git, readDir, db_step, hg, hb,
          except_bind_ok, except_bind_error, except_throw, except_pure]⟩
    | error err =>
      exact ⟨err, by
        simp [list_installed_crate_git, readDir, db_step, hg, hb,
          except_bind_ok, except_bind_error, except_throw, except_pure]⟩
  · intro cd name sha e rest h
    have hb := beforeLastSep_none_of_not_hasSep '-' name h
    cases hg : get_size e with
    | ok n =>
      exact ⟨.panicked "index out of bounds in rsplitn name split", by
        simp [list_installed_crate_git, readDir, checkout_step, checkout_sha_step, hg, hb,
          except_bind_ok, except_bind_error, except_throw, except_pure]⟩
    | error err =>
      exact ⟨err, by
        simp [list_installed_crate_git, readDir, checkout_step, checkout_sha_step, hg, hb,
          except_bind_ok, except_bind_error, except_throw, except_pure]⟩
  · intro cd idx name e h
    have hb := beforeLastSep_none_of_not_hasSep '.' name h
    cases hg : get_size e with
    | ok n =>
      exact ⟨.panicked "index out of bounds in rsplitn name split", by
        simp [list_installed_crate_registry, readDir, registry_cache_step,
          registry_cache_inner_step, hg, hb,
          except_bind_ok, except_bind_error, except_throw, except_pure]⟩
    | error err =>
      exact ⟨err, by
        simp [list_installed_crate_registry, readDir, registry_cache_step,
          registry_cache_inner_step, hg, hb,
          except_bind_ok, except_bind_error, except_throw, except_pure]⟩

/-- Witness for the amended C9 at concrete inputs. -/
theorem c9_witness :
    (hasSepChar '-' "nodash" = false ∧
      ∃ err, list_installed_crate_git emptyCrateDetail none
        (some (.dir [("nodash", .file 5)])) = .error err) ∧
    (hasSepChar '-' "nodash" = false ∧
      ∃ err, list_installed_crate_git emptyCrateDetail
        (some (.dir [("nodash", .dir [("sha1", .file 5)])])) none = .error err) ∧
    (hasSepChar '.' "nodotfile" = false ∧
      ∃ err, list_installed_crate_registry emptyCrateDetail none
        (some (.dir [("index", .dir [("nodotfile", .file 5)])])) = .error err) ∧
    (hasSepChar '-' "plain" = false ∧
      list_installed_crate_git emptyCrateDetail (some (.dir [("plain", .dir [])])) none =
        .ok (emptyCrateDetail, [])) :=
  ⟨⟨by decide, c9_amended_fail_loudly.1 emptyCrateDetail "nodash" (.file 5) (by decide)⟩,
   ⟨by decide,
    c9_amended_fail_loudly.2.1 emptyCrateDetail "nodash" "sha1" (.file 5) [] (by decide)⟩,
   ⟨by decide,
    c9_amended_fail_loudly.2.2.1 emptyCrateDetail "index" "nodotfile" (.file 5) (by decide)⟩,
   ⟨by decide,
    c9_amended_fail_loudly.2.2.2 emptyCrateDetail "plain" (by decide)⟩⟩

/-! ### Sorting and deduplication lemmas -/

theorem mem_insertSorted (a x : String) : ∀ l : List String,
    (x ∈ insertSorted a l ↔ x = a ∨ x ∈ l)
  | [] => by simp [insertSorted]
  | b :: rest => by
    by_cases h : b < a
    · simp [insertSorted, h, mem_insertSorted a x rest]
      tauto
    · simp [insertSorted, h]

theorem mem_sortStrings (x : String) : ∀ l : List String, (x ∈ sortStrings l ↔ x ∈ l)
  | [] => by simp [sortStrings]
  | a :: rest => by
    simp [sortStrings, mem_insertSorted, mem_sortStrings x rest]

theorem pairwise_le_insertSorted (a : String) : ∀ l : List String,
    l.Pairwise (· ≤ ·) → (insertSorted a l).Pairwise (· ≤ ·)
  | [], _ => by simp [insertSorted]
  | b :: rest, h => by
    obtain ⟨hb, hrest⟩ := List.pairwise_cons.mp h
    by_cases hba : b < a
    · rw [insertSorted, if_pos hba]
      refine List.pairwise_cons.mpr ⟨?_, pairwise_le_insertSorted a rest hrest⟩
      intro x hx
      rcases (mem_insertSorted a x rest).mp hx with hxa | hxr
      · exact hxa ▸ le_of_lt hba
      · exact hb x hxr
    · rw [insertSorted, if_neg hba]
      have hab : a ≤ b := le_of_not_lt hba
      refine List.pairwise_cons.mpr ⟨?_, h⟩
      intro x hx
      rcases List.mem_cons.mp hx with hxb | hxr
      · exact hxb ▸ hab
      · exact le_trans hab (hb x hxr)

theorem pairwise_le_sortStrings : ∀ l : List String, (sortStrings l).Pairwise (· ≤ ·)
  | [] => by simp [sortStrings]
  | a :: rest => pairwise_le_insertSorted a (sortStrings rest) (pairwise_le_sortStrings rest)

theorem dedupAdj_cons_head (c : String) : ∀ rest : List String,
    ∃ t, dedupAdj (c :: rest) = c :: t
  | [] => ⟨[], rfl⟩
  | d :: rs => by
    by_cases h : c = d
    · obtain ⟨t, ht⟩ := dedupAdj_cons_head d rs
      exact ⟨t, by rw [dedupAdj, if_pos h, ht, h]⟩
    · exact ⟨dedupAdj (d :: rs), by rw [dedupAdj, if_neg h]⟩

theorem mem_dedupAdj (x : String) : ∀ l : List String, (x ∈ dedupAdj l ↔ x ∈ l)
  | [] => by simp [dedupAdj]
  | [a] => by simp [dedupAdj]
  | a :: b :: rest => by
    by_cases h : a = b
    · subst h
      simp [dedupAdj, mem_dedupAdj x (a :: rest)]
    · simp [dedupAdj, h, mem_dedupAdj x (b :: rest)]

theorem chain'_lt_dedupAdj : ∀ l : List String,
    l.Pairwise (· ≤ ·) → (dedupAdj l).Chain' (· < ·)
  | [], _ => by simp [dedupAdj]
  | [a], _ => by simp [dedupAdj]
  | a :: b :: rest, h => by
    have hab : a ≤ b := (List.pairwise_cons.mp h).1 b (List.mem_cons_self b rest)
    have htail : (b :: rest).Pairwise (· ≤ ·) := (List.pairwise_cons.mp h).2
    by_cases heq : a = b
    · rw [dedupAdj, if_pos heq]
      exact chain'_lt_dedupAdj (b :: rest) htail
    · rw [dedupAdj, if_neg heq]
      obtain ⟨t, ht⟩ := dedupAdj_cons_head b rest
      have hc := chain'_lt_dedupAdj (b :: rest) htail
      rw [ht] at hc ⊢
      exact List.chain'_cons.mpr ⟨lt_of_le_of_ne hab heq, hc⟩

theorem pairwise_lt_dedupAdj_sortStrings (l : List String) :
    (dedupAdj (sortStrings l)).Pairwise (· < ·) :=
  List.chain'_iff_pairwise.mp (chain'_lt_dedupAdj (sortStrings l) (pairwise_le_sortStrings l))

theorem mem_dedupAdj_sortStrings (x : String) (l : List String) :
    x ∈ dedupAdj (sortStrings l) ↔ x ∈ l :=
  (mem_dedupAdj x (sortStrings l)).trans (mem_sortStrings x l)

/-! ### The git scanner characterization -/

theorem beforeLastSep_eq_getD (sep : Char) (s : String) (h : hasSepChar sep s = true) :
    beforeLastSep sep s.data = some ((beforeLastSep sep s.data).getD []) := by
  cases hc : beforeLastSep sep s.data with
  | none => rw [hasSepChar, hc] at h; simp at h
  | some v => simp

theorem checkout_sha_step_eval (outer : String) (cd : CrateDetail) (ks : List String)
    (sha : String) (e : FsEntry) (houter : hasSepChar '-' outer = true)
    (he : readable e = true) :
    checkout_sha_step outer (cd, ks) (sha, e) =
      .ok (cd.add_git_crate_archive (checkoutKey outer sha) (treeSize e),
           ks ++ [checkoutKey outer sha]) := by
  rw [checkout_sha_step]
  rw [show get_size (sha, e).2 = .ok (treeSize e) from get_size_of_readable e he,
    except_bind_ok]
  rw [beforeLastSep_eq_getD '-' outer houter]
  simp [checkoutKey, nameStem, except_pure]

theorem db_step_eval (cd : CrateDetail) (ks : List String) (name : String) (e : FsEntry)
    (hname : hasSepChar '-' name = true) (he : readable e = true) :
    db_step (cd, ks) (name, e) =
      .ok (cd.add_git_crate_source (dbKey name) (treeSize e), ks ++ [dbKey name]) := by
  rw [db_step]
  rw [show get_size (name, e).2 = .ok (treeSize e) from get_size_of_readable e he,
    except_bind_ok]
  rw [show beforeLastSep '-' (name, e).1.data =
    some ((beforeLastSep '-' name.data).getD []) from beforeLastSep_eq_getD '-' name hname]
  simp [dbKey, nameStem, except_pure]

theorem foldlM_checkout_sha_step (outer : String) (houter : hasSepChar '-' outer = true) :
    ∀ (shas : List (String × FsEntry)) (cd : CrateDetail) (ks : List String),
      (shas.all fun q => readable q.2) = true →
      shas.foldlM (checkout_sha_step outer) (cd, ks) =
        .ok ({cd with git_crates_archive := (applyObs cd.git_crates_archive
                (shas.map fun q => (checkoutKey outer q.1, treeSize q.2)))},
             ks ++ shas.map fun q => checkoutKey outer q.1)
  | [], cd, ks, _ => by
    rw [List.foldlM_nil]
    simp only [List.map_nil, applyObs, List.foldl_nil, List.append_nil]
    rfl
  | (sha, e) :: rest, cd, ks, hall => by
    rw [List.all_cons, Bool.and_eq_true] at hall
    obtain ⟨he, hrest⟩ := hall
    rw [List.foldlM_cons, checkout_sha_step_eval outer cd ks sha e houter he, except_bind_ok,
      foldlM_checkout_sha_step outer houter rest _ _ hrest]
    simp [CrateDetail.add_git_crate_archive, applyObs, List.append_assoc]

theorem foldlM_db_step :
    ∀ (dbs : List (String × FsEntry)) (cd : CrateDetail) (ks : List String),
      dbs.all wfDbEntry = true →
      dbs.foldlM db_step (cd, ks) =
        .ok ({cd with git_crates_source := applyObs cd.git_crates_source (dbObs dbs)},
             ks ++ dbKeys dbs)
  | [], cd, ks, _ => by
    rw [List.foldlM_nil]
    simp only [dbObs, dbKeys, List.map_nil, applyObs, List.foldl_nil, List.append_nil]
    rfl
  | (name, e) :: rest, cd, ks, hall => by
    rw [List.all_cons, Bool.and_eq_true] at hall
    obtain ⟨hwf, hrest⟩ := hall
    rw [wfDbEntry, Bool.and_eq_true] at hwf
    obtain ⟨hname, hread⟩ := hwf
    rw [List.foldlM_cons, db_step_eval cd ks name e hname hread, except_bind_ok,
      foldlM_db_step rest _ _ hrest]
    simp [CrateDetail.add_git_crate_source, applyObs, dbObs, dbKeys, List.append_assoc]

theorem foldlM_checkout_step :
    ∀ (cos : List (String × FsEntry)) (cd : CrateDetail) (ks : List String),
      cos.all wfCheckoutEntry = true →
      cos.foldlM checkout_step (cd, ks) =
        .ok ({cd with git_crates_archive := applyObs cd.git_crates_archive (checkoutObs cos)},
             ks ++ checkoutKeys cos)
  | [], cd, ks, _ => by
    rw [List.foldlM_nil]
    simp only [checkoutObs, checkoutKeys, List.flatMap_nil, applyObs, List.foldl_nil,
      List.append_nil]
    rfl
  | (name, e) :: rest, cd, ks, hall => by
    rw [List.all_cons, Bool.and_eq_true] at hall
    obtain ⟨hwf, hrest⟩ := hall
    cases e with
    | file n => simp [wfCheckoutEntry, isDirE] at hwf
    | bad => simp [wfCheckoutEntry, isDirE] at hwf
    | dir es =>
      rw [wfCheckoutEntry, Bool.and_eq_true, Bool.and_eq_true] at hwf
      obtain ⟨⟨hname, hdir⟩, hread⟩ := hwf
      rw [List.foldlM_cons, checkout_step]
      rw [show readDir (name, FsEntry.dir es).2 "failed to read checkout dir sub folder" =
          .ok es from rfl, except_bind_ok]
      rw [foldlM_checkout_sha_step name hname es cd ks
          (by simpa [entriesOf] using hread), except_bind_ok,
        foldlM_checkout_step rest _ _ hrest]
      simp [checkoutObs, checkoutKeys, entriesOf, applyObs, List.foldl_append,
        List.append_assoc]

/-- C3: on a well-formed cache layout (each repository folder of the
checkout root is a readable directory named with a hyphen, each database
folder is readable and named with a hyphen), the git scanner keys every
nested revision entry as the outer folder name up to its last hyphen joined
to the revision folder name and merges its size into the git-archive
category; it keys every database folder as its name up to the last hyphen
with the literal suffix -HEAD and merges its size into the git-source
category; the other three category maps are untouched, and the returned key
list is the sorted deduplicated list of the keys from both roots. -/
theorem c3_git_scanner (cd : CrateDetail) (cos dbs : List (String × FsEntry))
    (hco : cos.all wfCheckoutEntry = true) (hdb : dbs.all wfDbEntry = true) :
    list_installed_crate_git cd (some (.dir cos)) (some (.dir dbs)) =
      .ok ({cd with
              git_crates_archive := applyObs cd.git_crates_archive (checkoutObs cos),
              git_crates_source := applyObs cd.git_crates_source (dbObs dbs)},
           dedupAdj (sortStrings (checkoutKeys cos ++ dbKeys dbs))) ∧
    (dedupAdj (sortStrings (checkoutKeys cos ++ dbKeys dbs))).Pairwise (· < ·) ∧
    (∀ k : String, k ∈ dedupAdj (sortStrings (checkoutKeys cos ++ dbKeys dbs)) ↔
      k ∈ checkoutKeys cos ++ dbKeys dbs) := by
  refine ⟨?_, pairwise_lt_dedupAdj_sortStrings _, fun k => mem_dedupAdj_sortStrings k _⟩
  simp only [list_installed_crate_git, readDir, except_bind_ok]
  rw [foldlM_checkout_step cos cd [] hco]
  simp only [except_bind_ok]
  rw [foldlM_db_step dbs _ _ hdb]
  simp only [except_bind_ok, except_pure, List.nil_append]

/-- Witness for C3 at a concrete layout: one checkout repository folder
with one revision entry and one database folder. -/
theorem c3_witness :
    ([("foo-rev", FsEntry.dir [("abc123", FsEntry.file 10)])].all wfCheckoutEntry = true ∧
      [("bar-rev", FsEntry.file 7)].all wfDbEntry = true) ∧
    list_installed_crate_git emptyCrateDetail
        (some (.dir [("foo-rev", .dir [("abc123", .file 10)])]))
        (some (.dir [("bar-rev", .file 7)])) =
      .ok ({emptyCrateDetail with
              git_crates_archive := (applyObs emptyCrateDetail.git_crates_archive
                (checkoutObs [("foo-rev", FsEntry.dir [("abc123", FsEntry.file 10)])])),
              git_crates_source := (applyObs emptyCrateDetail.git_crates_source
                (dbObs [("bar-rev", FsEntry.file 7)]))},
           dedupAdj (sortStrings
             (checkoutKeys [("foo-rev", FsEntry.dir [("abc123", FsEntry.file 10)])] ++
               dbKeys [("bar-rev", FsEntry.file 7)]))) ∧
    (dedupAdj (sortStrings
      (checkoutKeys [("foo-rev", FsEntry.dir [("abc123", FsEntry.file 10)])] ++
        dbKeys [("bar-rev", FsEntry.file 7)]))).Pairwise (· < ·) :=
  ⟨⟨by decide, by decide⟩,
   (c3_git_scanner emptyCrateDetail
     [("foo-rev", FsEntry.dir [("abc123", FsEntry.file 10)])]
     [("bar-rev", FsEntry.file 7)] (by decide) (by decide)).1,
   (c3_git_scanner emptyCrateDetail
     [("foo-rev", FsEntry.dir [("abc123", FsEntry.file 10)])]
     [("bar-rev", FsEntry.file 7)] (by decide) (by decide)).2.1⟩

end CargoTrim
